import Mathlib

/-!
# Verification of the habitat-suitability raster pipeline (`src/app.py`)

Shallow embedding of the `update_map` callback (src/src/app.py, lines 463-558)
together with the one-time base-raster preprocessing (lines 108-110).

Modelling conventions:
* numpy float64 grids are modelled as total functions `ℕ → ℕ → ℚ` together with
  explicit dimensions `rows`/`cols`; claims quantify over in-range indices.
* The single place where the Python code can produce a non-finite float is the
  normalization `A.data / A_max` when `A_max = 0` (numpy emits `nan`/`inf` with a
  RuntimeWarning, it does not raise).  That IEEE behaviour is modelled by the
  type `Flt` below (finite rational, `nan`, `+inf`, `-inf`) and the division
  `ieeeDiv`; every strict comparison involving `nan` is `false`, as in IEEE 754.
* pandas lookups `data_list.Layer[data_list.Name == f].values[0]` and
  `data_list.Comment[...]` are modelled by a `FactorCatalog` of two total
  functions (the UI only offers names present in the catalog, and names are
  unique display keys).
* `datetime.now().strftime("%Y%m%d%H%M%S")` is modelled by an explicit
  `timestamp : String` argument (second-resolution clock reading).
* The image file written by `img.save` is modelled by the `emitted` field of the
  result: the RGBA byte matrix handed to the encoder (`(A_cropped*255).astype(uint8)`).
  In the no-selection short-circuit no file is written (`none`).
-/

namespace HHTool

/-- IEEE-754-like value: finite rational, NaN, or signed infinity.  Only the
operations the pipeline actually performs on possibly-non-finite values are
provided. -/
inductive Flt where
  | nan : Flt
  | pinf : Flt
  | ninf : Flt
  | fin : ℚ → Flt
deriving DecidableEq

/-- IEEE strict `<` : any comparison with NaN is false. -/
def Flt.ltF : Flt → Flt → Bool
  | .nan, _ => false
  | _, .nan => false
  | .pinf, _ => false
  | .ninf, .ninf => false
  | .ninf, _ => true
  | .fin _, .pinf => true
  | .fin _, .ninf => false
  | .fin a, .fin b => decide (a < b)

/-- IEEE strict `> 0` : false for NaN, true for `+inf`. -/
def Flt.gtZero : Flt → Bool
  | .nan => false
  | .pinf => true
  | .ninf => false
  | .fin a => decide (0 < a)

/-- IEEE division of two finite doubles: `0/0 = nan`, `±x/0 = ±inf` (numpy warns,
never raises), otherwise exact division. -/
def ieeeDiv (a m : ℚ) : Flt :=
  if m = 0 then
    if a = 0 then Flt.nan else if 0 < a then Flt.pinf else Flt.ninf
  else
    Flt.fin (a / m)

/-- A single-band raster grid (numpy 2-D float array), total-function model. -/
abbrev GridQ := ℕ → ℕ → ℚ

/-- A grid after normalization, where NaN/inf can occur. -/
abbrev GridF := ℕ → ℕ → Flt

/-- The base raster: grid data plus `rio.bounds() = (west, south, east, north)`
and its pixel dimensions (`A.shape = (rows, cols)`). -/
structure Raster where
  rows : ℕ
  cols : ℕ
  grid : GridQ
  west : ℚ
  south : ℚ
  east : ℚ
  north : ℚ

/-- The layer catalog (`data_list` from `Layers/HH_layers.xlsx`): factor name to
loaded raster grid (`load_raster('Layers/' + Layer)`) and to its `Comment`
column.  Names are unique display keys, so the pandas row lookup is a
function. -/
structure FactorCatalog where
  layerOf : String → GridQ
  commentOf : String → String

/-- Line 109: `base_raster.data[base_raster.data >= 0] = 0` — the one-time load
preprocessing zeroes every value `≥ 0` (strictly negative values are kept). -/
def preprocessBase (g : GridQ) : GridQ := fun i j => if 0 ≤ g i j then 0 else g i j

/-- Lines 470-475: `for factor in pos_factors: A.data += B.data`. -/
def addPosLayers (cat : FactorCatalog) (pos : List String) (A : GridQ) : GridQ :=
  pos.foldl (fun acc f => fun i j => acc i j + cat.layerOf f i j) A

/-- Lines 477-482: `for factor in neg_factors: A.data -= B.data`. -/
def subNegLayers (cat : FactorCatalog) (neg : List String) (A : GridQ) : GridQ :=
  neg.foldl (fun acc f => fun i j => acc i j - cat.layerOf f i j) A

/-- The counter `n` incremented once per selected factor (lines 468, 475, 482). -/
def nFactors (pos neg : List String) : ℕ := pos.length + neg.length

/-- Lines 467-482: accumulator `A` starting from the (already preprocessed) base
raster copy, plus all positive layers, minus all negative layers. -/
def accumGrid (cat : FactorCatalog) (base : GridQ) (pos neg : List String) : GridQ :=
  subNegLayers cat neg (addPosLayers cat pos base)

/-- Lines 484-485: `if n > 0: A.data /= n`. -/
def dividedGrid (cat : FactorCatalog) (base : GridQ) (pos neg : List String) : GridQ :=
  if 0 < nFactors pos neg then
    fun i j => accumGrid cat base pos neg i j / (nFactors pos neg : ℚ)
  else
    accumGrid cat base pos neg

/-- Line 486: `A.data[A.data < 0] = 0` — mask negative values. -/
def compositeGrid (cat : FactorCatalog) (base : GridQ) (pos neg : List String) : GridQ :=
  fun i j => if dividedGrid cat base pos neg i j < 0 then 0 else dividedGrid cat base pos neg i j

/-- Maximum of a list of rationals with a seed value. -/
def listMaxQ : List ℚ → ℚ → ℚ
  | [], m => m
  | x :: xs, m => max x (listMaxQ xs m)

/-- All entries of an `r × c` grid, row-major. -/
def gridVals (r c : ℕ) (g : GridQ) : List ℚ :=
  (List.range r).flatMap (fun i => (List.range c).map (fun j => g i j))

/-- Line 487: `A_max = A.data.max()`.  numpy's max has no seed; seeding the fold
with the entry `g 0 0` (an element of the nonempty grid) gives the same value
for `r, c ≥ 1`. -/
def gridMax (r c : ℕ) (g : GridQ) : ℚ := listMaxQ (gridVals r c g) (g 0 0)

/-- Line 490: `normalized_data = A.data / A_max` — performed unconditionally,
with IEEE semantics when `A_max = 0`. -/
def normalizeStage (r c : ℕ) (A : GridQ) : GridF :=
  fun i j => ieeeDiv (A i j) (gridMax r c A)

/-- Lines 493-494: `threshold = data_threshold / 100.0;`
`normalized_data[normalized_data < threshold] = 0`. -/
def thresholdStage (ng : GridF) (t : ℕ) : GridF :=
  fun i j => if Flt.ltF (ng i j) (Flt.fin ((t : ℚ) / 100)) then Flt.fin 0 else ng i j

/-- Line 499: `A_rgba[..., 3] = (normalized_data > 0).astype(float)`. -/
def alphaFloat (ng : GridF) : ℕ → ℕ → ℚ :=
  fun i j => if (ng i j).gtZero then 1 else 0

/-- Piecewise-linear interpolation through an ordered list of `(x, y)` stops
(clamping outside the stop range), as matplotlib builds a `LinearSegmentedColormap`. -/
def interpPts : List (ℚ × ℚ) → ℚ → ℚ
  | [], _ => 0
  | [(_, y)], _ => y
  | (x1, y1) :: (x2, y2) :: rest, x =>
    if x ≤ x1 then y1
    else if x ≤ x2 then y1 + (x - x1) * (y2 - y1) / (x2 - x1)
    else interpPts ((x2, y2) :: rest) x

/-- matplotlib `jet` red segment data. -/
def jetRedPts : List (ℚ × ℚ) :=
  [(0, 0), (35/100, 0), (66/100, 1), (89/100, 1), (1, 1/2)]

/-- matplotlib `jet` green segment data. -/
def jetGreenPts : List (ℚ × ℚ) :=
  [(0, 0), (125/1000, 0), (375/1000, 1), (64/100, 1), (91/100, 0), (1, 0)]

/-- matplotlib `jet` blue segment data. -/
def jetBluePts : List (ℚ × ℚ) :=
  [(0, 1/2), (11/100, 1), (34/100, 1), (65/100, 0), (1, 0)]

/-- Lines 497-498: `colormap = plt.get_cmap("jet"); A_rgba = colormap(normalized_data)`.
Models matplotlib's jet ramp by exact piecewise-linear interpolation of its
segment data (the 256-entry lookup-table quantization is not modelled; no claim
depends on exact RGB bytes).  NaN input maps to the bad color `(0,0,0)` and
out-of-range input clamps to the endpoint colors, as in matplotlib. -/
def jetRGB : Flt → ℚ × ℚ × ℚ
  | .nan => (0, 0, 0)
  | .pinf => (interpPts jetRedPts 1, interpPts jetGreenPts 1, interpPts jetBluePts 1)
  | .ninf => (interpPts jetRedPts 0, interpPts jetGreenPts 0, interpPts jetBluePts 0)
  | .fin q => (interpPts jetRedPts q, interpPts jetGreenPts q, interpPts jetBluePts q)

/-- Lines 497-499: the RGBA float grid with the alpha channel overwritten by the
significance mask. -/
def rgbaGrid (ng : GridF) : ℕ → ℕ → ℚ × ℚ × ℚ × ℚ :=
  fun i j => ((jetRGB (ng i j)).1, (jetRGB (ng i j)).2.1, (jetRGB (ng i j)).2.2,
              alphaFloat ng i j)

/-- Line 502: `nonzero_indices = np.argwhere(normalized_data > 0)` — row-major
list of the (row, col) indices of significant pixels. -/
def sigList (r c : ℕ) (ng : GridF) : List (ℕ × ℕ) :=
  (List.range r).flatMap
    (fun i => ((List.range c).filter (fun j => (ng i j).gtZero)).map (fun j => (i, j)))

/-- Minimum of a list of naturals with a seed value. -/
def listMinN : List ℕ → ℕ → ℕ
  | [], m => m
  | x :: xs, m => min x (listMinN xs m)

/-- Maximum of a list of naturals with a seed value. -/
def listMaxN : List ℕ → ℕ → ℕ
  | [], m => m
  | x :: xs, m => max x (listMaxN xs m)

/-- Significant pixels of the pipeline grid of a raster. -/
def sigOf (b : Raster) (ng : GridF) : List (ℕ × ℕ) := sigList b.rows b.cols ng

/-- Line 504: `min_row = nonzero_indices.min(axis=0)[0]`.  Seeded with `b.rows`,
which strictly exceeds every row index, so the fold is the true minimum whenever
the list is nonempty (the only situation the code uses it in). -/
def minRowOf (b : Raster) (ng : GridF) : ℕ := listMinN ((sigOf b ng).map Prod.fst) b.rows

/-- Line 505: `max_row = nonzero_indices.max(axis=0)[0]` (seed 0). -/
def maxRowOf (b : Raster) (ng : GridF) : ℕ := listMaxN ((sigOf b ng).map Prod.fst) 0

/-- Line 504: `min_col = nonzero_indices.min(axis=0)[1]`. -/
def minColOf (b : Raster) (ng : GridF) : ℕ := listMinN ((sigOf b ng).map Prod.snd) b.cols

/-- Line 505: `max_col = nonzero_indices.max(axis=0)[1]`. -/
def maxColOf (b : Raster) (ng : GridF) : ℕ := listMaxN ((sigOf b ng).map Prod.snd) 0

/-- Line 512: `pixel_width = (bounds[2] - bounds[0]) / A.shape[1]`. -/
def pixelWidth (b : Raster) : ℚ := (b.east - b.west) / (b.cols : ℚ)

/-- Line 513: `pixel_height = (bounds[3] - bounds[1]) / A.shape[0]`. -/
def pixelHeight (b : Raster) : ℚ := (b.north - b.south) / (b.rows : ℚ)

/-- Leaflet bounds value: a pair of `(lat, lon)` corners. -/
abbrev Bounds := (ℚ × ℚ) × (ℚ × ℚ)

/-- Lines 516-519: geographic bounds of the cropped pixel box, projected from
the north-west corner (row 0 = north). -/
def croppedBoundsOf (b : Raster) (mr Mr mc Mc : ℕ) : Bounds :=
  ((b.north - ((Mr : ℚ) + 1) * pixelHeight b, b.west + (mc : ℚ) * pixelWidth b),
   (b.north - (mr : ℚ) * pixelHeight b, b.west + ((Mc : ℚ) + 1) * pixelWidth b))

/-- Lines 523-526: the fallback bounds `[[bounds[3], bounds[0]], [bounds[1], bounds[2]]]`,
i.e. `[[north, west], [south, east]]`. -/
def fallbackBounds (b : Raster) : Bounds :=
  ((b.north, b.west), (b.south, b.east))

/-- Lines 502-526, bounds part: cropped bounds when some pixel is significant,
fallback bounds otherwise. -/
def colorizeBounds (b : Raster) (ng : GridF) : Bounds :=
  if sigOf b ng = [] then fallbackBounds b
  else croppedBoundsOf b (minRowOf b ng) (maxRowOf b ng) (minColOf b ng) (maxColOf b ng)

/-- `np.uint8` cast of a float in `[0, 1]` scaled by 255 (truncation toward zero,
which is the floor for the nonnegative values occurring here). -/
def toByte (q : ℚ) : ℕ := Int.toNat ⌊q * 255⌋

/-- One emitted RGBA byte quadruple. -/
abbrev Byte4 := ℕ × ℕ × ℕ × ℕ

/-- Line 508 and line 531: the RGBA sub-array `A_rgba[r0:r1, c0:c1]` converted to
bytes by `(A_cropped * 255).astype(np.uint8)`. -/
def emitImage (rgba : ℕ → ℕ → ℚ × ℚ × ℚ × ℚ) (r0 r1 c0 c1 : ℕ) : List (List Byte4) :=
  (List.range (r1 - r0)).map (fun di =>
    (List.range (c1 - c0)).map (fun dj =>
      (toByte (rgba (r0 + di) (c0 + dj)).1,
       toByte (rgba (r0 + di) (c0 + dj)).2.1,
       toByte (rgba (r0 + di) (c0 + dj)).2.2.1,
       toByte (rgba (r0 + di) (c0 + dj)).2.2.2)))

/-- Lines 502-526, image part: cropped RGBA bytes when some pixel is significant,
the full-grid RGBA bytes otherwise. -/
def colorizeImage (b : Raster) (ng : GridF) : List (List Byte4) :=
  if sigOf b ng = [] then emitImage (rgbaGrid ng) 0 b.rows 0 b.cols
  else emitImage (rgbaGrid ng) (minRowOf b ng) (maxRowOf b ng + 1)
         (minColOf b ng) (maxColOf b ng + 1)

/-- Line 539 header string. -/
def POS_HEADER : String := "**Pozitīvie faktori ar koeficienta vērtību +1:**  \n"

/-- Line 547 header string (includes the leading blank markdown line). -/
def NEG_HEADER : String := "  \n**Negatīvie faktori ar koeficienta vērtību -1:**  \n"

/-- The fixed placeholder `- Nav izvēlēts neviens` ("none selected"). -/
def NONE_SELECTED : String := "- Nav izvēlēts neviens"

/-- Lines 542-543 / 550-551: one factor's description chunk — its name followed
by its catalog comment. -/
def factorChunk (cat : FactorCatalog) (f : String) : String :=
  "***- " ++ f ++ "***  \n" ++ cat.commentOf f ++ "  \n"

/-- The `for factor in ...: description += ...` loop over one factor list. -/
def factorChunks (cat : FactorCatalog) (names : List String) : String :=
  names.foldl (fun s f => s ++ factorChunk cat f) ""

/-- Lines 539-553: the markdown description of the selected factors. -/
def descriptionOf (cat : FactorCatalog) (pos neg : List String) : String :=
  POS_HEADER ++ (if pos = [] then NONE_SELECTED ++ "  \n" else factorChunks cat pos)
    ++ NEG_HEADER ++ (if neg = [] then NONE_SELECTED else factorChunks cat neg)

/-- The normalized-and-thresholded grid the colorizer works on (lines 487-494). -/
def pipelineNg (cat : FactorCatalog) (b : Raster) (pos neg : List String) (t : ℕ) : GridF :=
  thresholdStage (normalizeStage b.rows b.cols (compositeGrid cat b.grid pos neg)) t

/-- The four callback outputs plus the image bytes written to
`static/output_raster.webp` (`none` when the short-circuit writes no file). -/
structure UpdateResult where
  imageUrl : String
  bounds : Bounds
  opacity : ℚ
  description : String
  emitted : Option (List (List Byte4))
deriving DecidableEq

/-- Lines 463-558: the `update_map` callback.  `base` is the module-level
`base_raster` after its load-time preprocessing (lines 108-110); `timestamp` is
the `datetime.now().strftime("%Y%m%d%H%M%S")` clock reading of the invocation. -/
def updateMap (cat : FactorCatalog) (base : Raster) (pos neg : List String)
    (transparency : ℚ) (data_threshold : ℕ) (timestamp : String) : UpdateResult :=
  if pos = [] ∧ neg = [] then
    { imageUrl := ""
      bounds := ((56, 24), (58, 26))
      opacity := transparency
      description := "No factors selected."
      emitted := none }
  else
    { imageUrl := "/static/output_raster.webp?t=" ++ timestamp
      bounds := colorizeBounds base (pipelineNg cat base pos neg data_threshold)
      opacity := transparency
      description := descriptionOf cat pos neg
      emitted := some (colorizeImage base (pipelineNg cat base pos neg data_threshold)) }

/-- One `CompositeRequest` (the four UI inputs) plus the invocation's clock
reading. -/
structure Request where
  pos : List String
  neg : List String
  transparency : ℚ
  threshold : ℕ
  timestamp : String

/-- The process state shared between requests: the module-level `base_raster`.
`update_map` reads it through `A = base_raster.copy()` (line 467); xarray's
`copy()` is deep by default, so all in-place updates of `A.data` touch only the
copy.  The embedding makes that explicit: the callback returns the state it was
given. -/
structure AppState where
  baseR : Raster

/-- One callback invocation as a state transformer. -/
def updateMapSt (cat : FactorCatalog) (s : AppState) (req : Request) :
    UpdateResult × AppState :=
  (updateMap cat s.baseR req.pos req.neg req.transparency req.threshold req.timestamp, s)

/-- A sequence of callback invocations threaded through the shared state. -/
def runRequests (cat : FactorCatalog) (s : AppState) :
    List Request → List UpdateResult × AppState
  | [] => ([], s)
  | req :: rest =>
    let p := updateMapSt cat s req
    let q := runRequests cat p.2 rest
    (p.1 :: q.1, q.2)

/-! ## General lemmas about the embedded operations -/

theorem addPosLayers_apply (cat : FactorCatalog) (pos : List String) (A : GridQ) (i j : ℕ) :
    addPosLayers cat pos A i j = A i j + (pos.map (fun f => cat.layerOf f i j)).sum := by
  induction pos generalizing A with
  | nil => simp [addPosLayers]
  | cons f fs ih =>
    have h : addPosLayers cat (f :: fs) A
        = addPosLayers cat fs (fun i' j' => A i' j' + cat.layerOf f i' j') := rfl
    rw [h, ih]
    simp [add_assoc]

theorem subNegLayers_apply (cat : FactorCatalog) (neg : List String) (A : GridQ) (i j : ℕ) :
    subNegLayers cat neg A i j = A i j - (neg.map (fun f => cat.layerOf f i j)).sum := by
  induction neg generalizing A with
  | nil => simp [subNegLayers]
  | cons f fs ih =>
    have h : subNegLayers cat (f :: fs) A
        = subNegLayers cat fs (fun i' j' => A i' j' - cat.layerOf f i' j') := rfl
    rw [h, ih]
    simp [sub_sub]

theorem accumGrid_apply (cat : FactorCatalog) (base : GridQ) (pos neg : List String) (i j : ℕ) :
    accumGrid cat base pos neg i j
      = base i j + (pos.map (fun f => cat.layerOf f i j)).sum
          - (neg.map (fun f => cat.layerOf f i j)).sum := by
  rw [accumGrid, subNegLayers_apply, addPosLayers_apply]

theorem clamp_eq_max (x : ℚ) : (if x < 0 then 0 else x) = max 0 x := by
  rcases lt_or_le x 0 with h | h
  · simp [h, max_eq_left h.le]
  · simp [not_lt.mpr h, max_eq_right h]

theorem compositeGrid_eq_max (cat : FactorCatalog) (base : GridQ) (pos neg : List String)
    (hn : 0 < nFactors pos neg) (i j : ℕ) :
    compositeGrid cat base pos neg i j
      = max 0 (accumGrid cat base pos neg i j / (nFactors pos neg : ℚ)) := by
  rw [compositeGrid, dividedGrid, if_pos hn, clamp_eq_max]

theorem sum_map_erase (l : List String) (a : String) (h : a ∈ l) (g : String → ℚ) :
    (l.map g).sum = g a + ((l.erase a).map g).sum := by
  have hp := List.perm_cons_erase h
  have := List.Perm.sum_eq (List.Perm.map g hp)
  simpa using this

theorem length_erase_add_one (l : List String) (a : String) (h : a ∈ l) :
    l.length = (l.erase a).length + 1 := by
  have hp := List.perm_cons_erase h
  simpa [Nat.add_comm] using hp.length_eq

theorem listMinN_le_of_mem {l : List ℕ} {x : ℕ} (h : x ∈ l) (m : ℕ) : listMinN l m ≤ x := by
  induction l with
  | nil => cases h
  | cons a as ih =>
    rcases List.mem_cons.mp h with rfl | h'
    · exact min_le_left _ _
    · exact le_trans (min_le_right _ _) (ih h')

theorem le_listMinN {l : List ℕ} {a m : ℕ} (hm : a ≤ m) (h : ∀ x ∈ l, a ≤ x) :
    a ≤ listMinN l m := by
  induction l with
  | nil => exact hm
  | cons b bs ih =>
    exact le_min (h b (by simp)) (ih (fun x hx => h x (by simp [hx])))

theorem listMinN_eq {l : List ℕ} {a m : ℕ} (ha : a ∈ l) (hle : ∀ x ∈ l, a ≤ x) (hm : a ≤ m) :
    listMinN l m = a :=
  le_antisymm (listMinN_le_of_mem ha m) (le_listMinN hm hle)

theorem le_listMaxN_of_mem {l : List ℕ} {x : ℕ} (h : x ∈ l) (m : ℕ) : x ≤ listMaxN l m := by
  induction l with
  | nil => cases h
  | cons a as ih =>
    rcases List.mem_cons.mp h with rfl | h'
    · exact le_max_left _ _
    · exact le_trans (ih h') (le_max_right _ _)

theorem listMaxN_le {l : List ℕ} {a m : ℕ} (hm : m ≤ a) (h : ∀ x ∈ l, x ≤ a) :
    listMaxN l m ≤ a := by
  induction l with
  | nil => exact hm
  | cons b bs ih =>
    exact max_le (h b (by simp)) (ih (fun x hx => h x (by simp [hx])))

theorem listMaxN_eq {l : List ℕ} {a : ℕ} (ha : a ∈ l) (hle : ∀ x ∈ l, x ≤ a) :
    listMaxN l 0 = a :=
  le_antisymm (listMaxN_le (Nat.zero_le a) hle) (le_listMaxN_of_mem ha 0)

theorem mem_sigList {r c : ℕ} {ng : GridF} {p : ℕ × ℕ} :
    p ∈ sigList r c ng ↔ p.1 < r ∧ p.2 < c ∧ (ng p.1 p.2).gtZero = true := by
  cases p with
  | mk i j =>
    simp only [sigList, List.mem_flatMap, List.mem_map, List.mem_filter, List.mem_range]
    constructor
    · rintro ⟨i', hi', j', ⟨hj', hz⟩, hpq⟩
      obtain ⟨rfl, rfl⟩ := Prod.mk.injEq .. ▸ hpq
      exact ⟨hi', hj', hz⟩
    · rintro ⟨hi, hj, hz⟩
      exact ⟨i, hi, j, ⟨hj, hz⟩, rfl⟩

theorem sigList_eq_nil {r c : ℕ} {ng : GridF}
    (h : ∀ i j, i < r → j < c → (ng i j).gtZero = false) : sigList r c ng = [] := by
  rw [List.eq_nil_iff_forall_not_mem]
  intro p hp
  rw [mem_sigList] at hp
  have hfalse := h p.1 p.2 hp.1 hp.2.1
  rw [hp.2.2] at hfalse
  cases hfalse

theorem le_listMaxQ_of_mem {l : List ℚ} {x : ℚ} (h : x ∈ l) (m : ℚ) : x ≤ listMaxQ l m := by
  induction l with
  | nil => cases h
  | cons a as ih =>
    rcases List.mem_cons.mp h with rfl | h'
    · exact le_max_left _ _
    · exact le_trans (ih h') (le_max_right _ _)

theorem listMaxQ_le {l : List ℚ} {a m : ℚ} (hm : m ≤ a) (h : ∀ x ∈ l, x ≤ a) :
    listMaxQ l m ≤ a := by
  induction l with
  | nil => exact hm
  | cons b bs ih =>
    exact max_le (h b (by simp)) (ih (fun x hx => h x (by simp [hx])))

theorem mem_gridVals {r c i j : ℕ} (hi : i < r) (hj : j < c) (g : GridQ) :
    g i j ∈ gridVals r c g := by
  simp only [gridVals, List.mem_flatMap, List.mem_map, List.mem_range]
  exact ⟨i, hi, j, hj, rfl⟩

theorem entry_le_gridMax {r c i j : ℕ} (hi : i < r) (hj : j < c) (g : GridQ) :
    g i j ≤ gridMax r c g :=
  le_listMaxQ_of_mem (mem_gridVals hi hj g) (g 0 0)

theorem gridMax_eq_zero {r c : ℕ} (hr : 0 < r) (hc : 0 < c) (g : GridQ)
    (h : ∀ i j, i < r → j < c → g i j = 0) : gridMax r c g = 0 := by
  have hall : ∀ x ∈ gridVals r c g, x ≤ 0 := by
    intro x hx
    simp only [gridVals, List.mem_flatMap, List.mem_map, List.mem_range] at hx
    obtain ⟨i, hi, j, hj, rfl⟩ := hx
    exact (h i j hi hj).le
  have h00 : g 0 0 = 0 := h 0 0 hr hc
  have hub : gridMax r c g ≤ 0 := listMaxQ_le h00.le hall
  have hlb : (0 : ℚ) ≤ gridMax r c g := h00 ▸ entry_le_gridMax hr hc g
  exact le_antisymm hub hlb

theorem compositeGrid_nonneg (cat : FactorCatalog) (base : GridQ) (pos neg : List String)
    (i j : ℕ) : 0 ≤ compositeGrid cat base pos neg i j := by
  rw [compositeGrid]
  split
  · exact le_refl 0
  · exact le_of_not_lt (by assumption)

theorem toByte_zero : toByte 0 = 0 := by norm_num [toByte]

theorem toByte_one : toByte 1 = 255 := by
  norm_num [toByte]
  decide

/-- The alpha byte the image emitter writes for pixel `(i, j)`: line 531's
`(… * 255).astype(np.uint8)` applied to line 499's alpha channel. -/
def alphaByte (ng : GridF) (i j : ℕ) : ℕ := toByte (alphaFloat ng i j)

/-! ## Claim theorems -/

/-- C4: when both the positive and the negative factor sets are empty, the
callback short-circuits before any composite/colorize work (writing no image
file) and returns exactly the empty image URL `""`, the fixed default bounds
`[[56.0, 24.0], [58.0, 26.0]]`, the transparency passthrough, and the
description text `"No factors selected."`. -/
theorem updateMap_no_selection (cat : FactorCatalog) (base : Raster)
    (transparency : ℚ) (t : ℕ) (ts : String) :
    updateMap cat base [] [] transparency t ts
      = { imageUrl := ""
          bounds := ((56, 24), (58, 26))
          opacity := transparency
          description := "No factors selected."
          emitted := none } := rfl

/-- C3: with `k ≥ 1` positive factors, no negative factors, and a base raster
that contributes no data (every preprocessed base entry is `0`, which is what
the spec asserts of the deployed base raster), the composite grid at every
pixel is the elementwise sum of the `k` factor layers divided by `k`, with
negative results clamped to `0`. -/
theorem composite_avg_of_pos_only (cat : FactorCatalog) (base : GridQ)
    (hbase : ∀ i j, base i j = 0) (pos : List String) (hpos : pos ≠ []) (i j : ℕ) :
    compositeGrid cat base pos [] i j
      = max 0 ((pos.map (fun f => cat.layerOf f i j)).sum / (pos.length : ℚ)) := by
  have hn : 0 < nFactors pos [] := by
    simpa [nFactors] using List.length_pos.mpr hpos
  rw [compositeGrid_eq_max cat base pos [] hn, accumGrid_apply]
  simp [hbase, nFactors]

/-- A concrete two-factor catalog: `f ↦ 2`, every other name `↦ 4`. -/
def catAvg : FactorCatalog :=
  { layerOf := fun f => if f = "f" then fun _ _ => 2 else fun _ _ => 4
    commentOf := fun _ => "" }

/-- Witness for C3 at a concrete input: base all zero, factors `f ↦ 2` and
`g ↦ 4`, composite `= max 0 ((2+4)/2) = 3`. -/
theorem composite_avg_of_pos_only_witness :
    ((∀ i j : ℕ, (fun _ _ => (0 : ℚ)) i j = 0) ∧ (["f", "g"] : List String) ≠ []) ∧
      compositeGrid catAvg (fun _ _ => 0) ["f", "g"] [] 0 0
      = max 0 ((((["f", "g"] : List String).map
          (fun f => catAvg.layerOf f 0 0)).sum) / (((["f", "g"] : List String).length : ℚ))) :=
  ⟨⟨fun _ _ => rfl, by simp⟩,
    composite_avg_of_pos_only _ _ (fun _ _ => rfl) _ (by simp) 0 0⟩

/-- A concrete catalog for the duplicated-factor counterexample: `g ↦ 3`, every
other name `↦ 0`. -/
def catDup : FactorCatalog :=
  { layerOf := fun s => if s = "g" then fun _ _ => 3 else fun _ _ => 0
    commentOf := fun _ => "" }

/-- The value claimed for a factor `f` selected both positively and negatively:
`(sum of other positives - sum of other negatives) / (number of other factors + 2)`,
with no clamping.  Stated from the claim's words, to be compared with
`compositeGrid`. -/
def unclampedDupFormula (cat : FactorCatalog) (pos neg : List String) (f : String)
    (i j : ℕ) : ℚ :=
  (((pos.erase f).map (fun g' => cat.layerOf g' i j)).sum
      - ((neg.erase f).map (fun g' => cat.layerOf g' i j)).sum)
    / (((pos.erase f).length : ℚ) + ((neg.erase f).length : ℚ) + 2)

/-- C9 counterexample: with `pos = ["f"]`, `neg = ["f", "g"]`, layer `f ↦ 0`,
layer `g ↦ 3`, an all-zero base, the claimed (unclamped) value is
`(0 - 3) / (0 + 1 + 2) = -1`, but the composite is clamped to `0`, so the
claim's equation fails. -/
theorem composite_duplicate_unclamped_counterexample :
    compositeGrid catDup (fun _ _ => 0) ["f"] ["f", "g"] 0 0
      ≠ unclampedDupFormula catDup ["f"] ["f", "g"] "f" 0 0 := by
  have h1 : compositeGrid catDup (fun _ _ => 0) ["f"] ["f", "g"] 0 0 = 0 := by
    simp [compositeGrid, dividedGrid, accumGrid, addPosLayers, subNegLayers, nFactors, catDup]
  have h2 : unclampedDupFormula catDup ["f"] ["f", "g"] "f" 0 0 = -1 := by
    simp [unclampedDupFormula, List.erase, catDup]
    norm_num
  rw [h1, h2]
  norm_num

/-- C9 (amended): if the same factor name is selected both positively and
negatively, its contributions cancel in the accumulator while the divisor still
counts it twice, so the composite equals the average of the remaining factors
over `(number of other factors + 2)`, *clamped at 0* — a duplicated factor
dilutes the average of the remaining factors rather than being a no-op. -/
theorem composite_duplicate_dilutes (cat : FactorCatalog) (base : GridQ)
    (hbase : ∀ i j, base i j = 0) (pos neg : List String) (f : String)
    (hfp : f ∈ pos) (hfn : f ∈ neg) (i j : ℕ) :
    compositeGrid cat base pos neg i j
      = max 0 (unclampedDupFormula cat pos neg f i j) := by
  have hn : 0 < nFactors pos neg := by
    have := List.length_pos.mpr (List.ne_nil_of_mem hfp)
    simp only [nFactors]
    omega
  rw [compositeGrid_eq_max cat base pos neg hn, accumGrid_apply]
  have hsp := sum_map_erase pos f hfp (fun g' => cat.layerOf g' i j)
  have hsn := sum_map_erase neg f hfn (fun g' => cat.layerOf g' i j)
  have hlen : (nFactors pos neg : ℚ)
      = ((pos.erase f).length : ℚ) + ((neg.erase f).length : ℚ) + 2 := by
    have hp := length_erase_add_one pos f hfp
    have hq := length_erase_add_one neg f hfn
    simp only [nFactors, hp, hq]
    push_cast
    ring
  rw [hsp, hsn, hbase, hlen, unclampedDupFormula]
  ring_nf

/-- A concrete catalog for the dilution witness: `h ↦ 6`, every other name `↦ 5`. -/
def catDil : FactorCatalog :=
  { layerOf := fun s => if s = "h" then fun _ _ => 6 else fun _ _ => 5
    commentOf := fun _ => "" }

/-- Witness for C9 (amended) at a concrete input: `pos = ["f", "h"]`,
`neg = ["f"]`, layers `f ↦ 5`, `h ↦ 6`: the composite is
`max 0 (6 / (1 + 0 + 2)) = 2`. -/
theorem composite_duplicate_dilutes_witness :
    ((∀ i j : ℕ, (fun _ _ => (0 : ℚ)) i j = 0)
      ∧ "f" ∈ (["f", "h"] : List String) ∧ "f" ∈ (["f"] : List String)) ∧
      compositeGrid catDil (fun _ _ => 0) ["f", "h"] ["f"] 0 0
        = max 0 (unclampedDupFormula catDil ["f", "h"] ["f"] "f" 0 0) :=
  ⟨⟨fun _ _ => rfl, by simp, by simp⟩,
    composite_duplicate_dilutes _ _ (fun _ _ => rfl) _ _ "f" (by simp) (by simp) 0 0⟩

/-- The trivially-zero catalog (every layer identically `0`, empty comments). -/
def catZ : FactorCatalog := { layerOf := fun _ => fun _ _ => 0, commentOf := fun _ => "" }

/-- A one-pixel all-zero base raster over the box `[56, 58] × [24, 26]`. -/
def baseZ : Raster :=
  { rows := 1, cols := 1, grid := fun _ _ => 0
    west := 24, south := 56, east := 26, north := 58 }

/-- C6: for every normalized grid and threshold percentage, a value strictly
below `thresholdPercent / 100` is set to `0` and its pixel's emitted alpha byte
is `0` (fully transparent); every pixel whose value after thresholding is
strictly greater than `0` gets alpha byte `255`. -/
theorem threshold_transparency (ng : GridF) (t : ℕ) (ht : t ≤ 100) (i j : ℕ) :
    (Flt.ltF (ng i j) (Flt.fin ((t : ℚ) / 100)) = true →
        thresholdStage ng t i j = Flt.fin 0 ∧ alphaByte (thresholdStage ng t) i j = 0)
    ∧ ((thresholdStage ng t i j).gtZero = true →
        alphaByte (thresholdStage ng t) i j = 255) := by
  constructor
  · intro hlt
    have h1 : thresholdStage ng t i j = Flt.fin 0 := by
      rw [thresholdStage]
      simp [hlt]
    refine ⟨h1, ?_⟩
    rw [alphaByte, alphaFloat, h1]
    norm_num [Flt.gtZero, toByte_zero]
  · intro hgt
    rw [alphaByte, alphaFloat, hgt]
    simp [toByte_one]

/-- The normalized example grid `[[0.1, 0.6], [0.9, 0.2]]` of the threshold
scenario. -/
def ngEx : GridF := fun i j =>
  if i = 0 ∧ j = 0 then Flt.fin (1/10)
  else if i = 0 ∧ j = 1 then Flt.fin (6/10)
  else if i = 1 ∧ j = 0 then Flt.fin (9/10)
  else if i = 1 ∧ j = 1 then Flt.fin (2/10)
  else Flt.fin 0

/-- Witness for C6 at the claim's example: grid `[[0.1, 0.6], [0.9, 0.2]]` with
threshold `50` zeroes pixel `(0,0)` with alpha `0`, keeps pixel `(0,1)` with
alpha `255`, and the significant pixels are exactly `(0,1)` and `(1,0)`. -/
theorem threshold_transparency_witness :
    ((50 : ℕ) ≤ 100
      ∧ Flt.ltF (ngEx 0 0) (Flt.fin ((50 : ℚ) / 100)) = true
      ∧ (thresholdStage ngEx 50 0 1).gtZero = true)
    ∧ (thresholdStage ngEx 50 0 0 = Flt.fin 0 ∧ alphaByte (thresholdStage ngEx 50) 0 0 = 0)
    ∧ alphaByte (thresholdStage ngEx 50) 0 1 = 255
    ∧ sigList 2 2 (thresholdStage ngEx 50) = [(0, 1), (1, 0)] := by
  have ht : (50 : ℕ) ≤ 100 := by norm_num
  have h1 : Flt.ltF (ngEx 0 0) (Flt.fin ((50 : ℚ) / 100)) = true := by
    simp [ngEx, Flt.ltF]
    norm_num
  have h2 : (thresholdStage ngEx 50 0 1).gtZero = true := by
    simp [thresholdStage, ngEx, Flt.ltF, Flt.gtZero]
    norm_num
  refine ⟨⟨ht, h1, h2⟩, (threshold_transparency ngEx 50 ht 0 0).1 h1,
    (threshold_transparency ngEx 50 ht 0 1).2 h2, ?_⟩
  simp [sigList, thresholdStage, ngEx, Flt.ltF, Flt.gtZero, List.range_succ]
  norm_num

/-- C10: the shared base raster is unchanged by any sequence of requests (each
invocation works on a deep copy), so every request in a sequence observes the
same base grid and geographic bounds as a fresh request against the initial
state. -/
theorem runRequests_base_unchanged (cat : FactorCatalog) (s : AppState)
    (reqs : List Request) :
    (runRequests cat s reqs).2 = s
    ∧ (runRequests cat s reqs).1
        = reqs.map (fun r =>
            updateMap cat s.baseR r.pos r.neg r.transparency r.threshold r.timestamp) := by
  induction reqs with
  | nil => exact ⟨rfl, rfl⟩
  | cons r rs ih =>
    refine ⟨?_, ?_⟩ <;> simp [runRequests, updateMapSt, ih.1, ih.2]

theorem string_append_cancel_left {s a b : String} (h : s ++ a = s ++ b) : a = b := by
  have hd := congrArg String.data h
  rw [String.data_append, String.data_append] at hd
  have h2 := List.append_cancel_left hd
  cases a
  cases b
  exact congrArg String.mk h2

theorem foldl_chunks_from (cat : FactorCatalog) (names : List String) (s : String) :
    List.foldl (fun acc f => acc ++ factorChunk cat f) s names
      = s ++ factorChunks cat names := by
  induction names generalizing s with
  | nil => exact (String.append_empty s).symm
  | cons a as ih =>
    rw [List.foldl_cons, ih]
    have hc : factorChunks cat (a :: as) = ("" ++ factorChunk cat a) ++ factorChunks cat as := by
      rw [factorChunks, List.foldl_cons, ih]
    rw [hc, String.empty_append, String.append_assoc]

theorem factorChunks_decomp (cat : FactorCatalog) {names : List String} {f : String}
    (h : f ∈ names) :
    ∃ u v, factorChunks cat names = u ++ (factorChunk cat f ++ v) := by
  induction names with
  | nil => cases h
  | cons a as ih =>
    have hcons : factorChunks cat (a :: as) = factorChunk cat a ++ factorChunks cat as := by
      rw [factorChunks, List.foldl_cons, foldl_chunks_from, String.empty_append]
    rcases List.mem_cons.mp h with rfl | h'
    · exact ⟨"", factorChunks cat as, by rw [hcons, String.empty_append]⟩
    · obtain ⟨u, v, huv⟩ := ih h'
      exact ⟨factorChunk cat a ++ u, v, by rw [hcons, huv, String.append_assoc]⟩

/-- C8: the description always consists of a positive section and a negative
section; each section contains, for every selected factor, its name followed by
its catalog comment (`factorChunk`), and an empty category produces the fixed
"none selected" placeholder line instead. -/
theorem description_sections (cat : FactorCatalog) (pos neg : List String) :
    ∃ pBody nBody,
      descriptionOf cat pos neg = POS_HEADER ++ pBody ++ NEG_HEADER ++ nBody
      ∧ (∀ f ∈ pos, ∃ u v, pBody = u ++ (factorChunk cat f ++ v))
      ∧ (∀ f ∈ neg, ∃ u v, nBody = u ++ (factorChunk cat f ++ v))
      ∧ (pos = [] → pBody = NONE_SELECTED ++ "  \n")
      ∧ (neg = [] → nBody = NONE_SELECTED) := by
  refine ⟨(if pos = [] then NONE_SELECTED ++ "  \n" else factorChunks cat pos),
          (if neg = [] then NONE_SELECTED else factorChunks cat neg), rfl, ?_, ?_, ?_, ?_⟩
  · intro f hf
    rw [if_neg (List.ne_nil_of_mem hf)]
    exact factorChunks_decomp cat hf
  · intro f hf
    rw [if_neg (List.ne_nil_of_mem hf)]
    exact factorChunks_decomp cat hf
  · intro h
    rw [if_pos h]
  · intro h
    rw [if_pos h]

/-- The catalog of the description scenario: comments `"ca"` for `A`, `"cb"`
otherwise. -/
def catAB : FactorCatalog :=
  { layerOf := fun _ => fun _ _ => 0
    commentOf := fun s => if s = "A" then "ca" else "cb" }

/-- Witness for C8 at the claim's scenario: positive `{"A", "B"}` with comments
`"ca"`, `"cb"`, negative `{}` — both chunks appear in the positive section and
the negative section is the placeholder. -/
theorem description_sections_witness :
    ∃ pBody nBody,
      descriptionOf catAB ["A", "B"] [] = POS_HEADER ++ pBody ++ NEG_HEADER ++ nBody
      ∧ (∀ f ∈ (["A", "B"] : List String), ∃ u v, pBody = u ++ (factorChunk catAB f ++ v))
      ∧ (∀ f ∈ ([] : List String), ∃ u v, nBody = u ++ (factorChunk catAB f ++ v))
      ∧ ((["A", "B"] : List String) = [] → pBody = NONE_SELECTED ++ "  \n")
      ∧ (([] : List String) = [] → nBody = NONE_SELECTED) :=
  description_sections catAB ["A", "B"] []

/-- C7 (amended): two invocations with identical request and inputs produce
identical emitted RGBA byte arrays and identical cropped bounds; their URLs
differ whenever the two invocations' second-resolution timestamps differ. -/
theorem updateMap_deterministic (cat : FactorCatalog) (b : Raster) (pos neg : List String)
    (trans : ℚ) (t : ℕ) (ts1 ts2 : String) (hsel : ¬(pos = [] ∧ neg = [])) :
    (updateMap cat b pos neg trans t ts1).emitted = (updateMap cat b pos neg trans t ts2).emitted
    ∧ (updateMap cat b pos neg trans t ts1).bounds = (updateMap cat b pos neg trans t ts2).bounds
    ∧ (ts1 ≠ ts2 →
        (updateMap cat b pos neg trans t ts1).imageUrl
          ≠ (updateMap cat b pos neg trans t ts2).imageUrl) := by
  refine ⟨?_, ?_, ?_⟩
  · simp [updateMap, if_neg hsel]
  · simp [updateMap, if_neg hsel]
  · intro hts heq
    simp only [updateMap, if_neg hsel] at heq
    exact hts (string_append_cancel_left heq)

/-- Witness for C7 (amended) at a concrete input with two distinct timestamps. -/
theorem updateMap_deterministic_witness :
    (¬((["f"] : List String) = [] ∧ ([] : List String) = [])) ∧
      ((updateMap catZ baseZ ["f"] [] (1/2) 0 "20250101120000").emitted
          = (updateMap catZ baseZ ["f"] [] (1/2) 0 "20250101120001").emitted
        ∧ (updateMap catZ baseZ ["f"] [] (1/2) 0 "20250101120000").bounds
          = (updateMap catZ baseZ ["f"] [] (1/2) 0 "20250101120001").bounds
        ∧ (("20250101120000" : String) ≠ "20250101120001" →
            (updateMap catZ baseZ ["f"] [] (1/2) 0 "20250101120000").imageUrl
              ≠ (updateMap catZ baseZ ["f"] [] (1/2) 0 "20250101120001").imageUrl)) :=
  ⟨by simp, updateMap_deterministic catZ baseZ ["f"] [] (1/2) 0 _ _ (by simp)⟩

/-- C7 counterexample: the freshness token is exactly the second-resolution
timestamp, so two invocations of the pipeline within the same clock second
return byte-for-byte identical URLs — the claim that the URLs of every pair of
identical-request invocations differ in their freshness token fails. -/
theorem updateMap_same_second_url_counterexample :
    (updateMap catZ baseZ ["f"] [] (1/2) 0 "20250101120000").imageUrl
      = "/static/output_raster.webp?t=20250101120000" := by
  simp [updateMap]


/-- C5: when the significant-pixel set is nonempty and `[mr..Mr, mc..Mc]` is its
inclusive bounding box (every significant pixel lies inside it and each of its
four edges is attained), the colorizer returns the geographic bounds obtained by
projecting the pixel box from the north-west corner with
`pixelWidth = (east-west)/cols` and `pixelHeight = (north-south)/rows`:
`[[north - (Mr+1)*ph, west + mc*pw], [north - mr*ph, west + (Mc+1)*pw]]`. -/
theorem colorize_crop_bounds (b : Raster) (ng : GridF) (mr Mr mc Mc : ℕ)
    (hbound : ∀ p ∈ sigOf b ng, mr ≤ p.1 ∧ p.1 ≤ Mr ∧ mc ≤ p.2 ∧ p.2 ≤ Mc)
    (hmr : ∃ p ∈ sigOf b ng, p.1 = mr) (hMr : ∃ p ∈ sigOf b ng, p.1 = Mr)
    (hmc : ∃ p ∈ sigOf b ng, p.2 = mc) (hMc : ∃ p ∈ sigOf b ng, p.2 = Mc) :
    colorizeBounds b ng
      = ((b.north - ((Mr : ℚ) + 1) * pixelHeight b, b.west + (mc : ℚ) * pixelWidth b),
         (b.north - (mr : ℚ) * pixelHeight b, b.west + ((Mc : ℚ) + 1) * pixelWidth b)) := by
  obtain ⟨p0, hp0, hp0r⟩ := hmr
  obtain ⟨p1, hp1, hp1r⟩ := hMr
  obtain ⟨p2, hp2, hp2c⟩ := hmc
  obtain ⟨p3, hp3, hp3c⟩ := hMc
  have hne : sigOf b ng ≠ [] := List.ne_nil_of_mem hp0
  have hminrow : minRowOf b ng = mr := by
    apply listMinN_eq
    · exact List.mem_map.mpr ⟨p0, hp0, hp0r⟩
    · intro x hx
      obtain ⟨q, hq, rfl⟩ := List.mem_map.mp hx
      exact (hbound q hq).1
    · exact le_of_lt (hp0r ▸ (mem_sigList.mp hp0).1)
  have hmaxrow : maxRowOf b ng = Mr := by
    apply listMaxN_eq
    · exact List.mem_map.mpr ⟨p1, hp1, hp1r⟩
    · intro x hx
      obtain ⟨q, hq, rfl⟩ := List.mem_map.mp hx
      exact (hbound q hq).2.1
  have hmincol : minColOf b ng = mc := by
    apply listMinN_eq
    · exact List.mem_map.mpr ⟨p2, hp2, hp2c⟩
    · intro x hx
      obtain ⟨q, hq, rfl⟩ := List.mem_map.mp hx
      exact (hbound q hq).2.2.1
    · exact le_of_lt (hp2c ▸ (mem_sigList.mp hp2).2.1)
  have hmaxcol : maxColOf b ng = Mc := by
    apply listMaxN_eq
    · exact List.mem_map.mpr ⟨p3, hp3, hp3c⟩
    · intro x hx
      obtain ⟨q, hq, rfl⟩ := List.mem_map.mp hx
      exact (hbound q hq).2.2.2
  rw [colorizeBounds, if_neg hne, hminrow, hmaxrow, hmincol, hmaxcol, croppedBoundsOf]

/-- A 3x3 all-zero base raster over the box `[0, 3] × [0, 3]` (pixel width and
height both `1`). -/
def base3 : Raster :=
  { rows := 3, cols := 3, grid := fun _ _ => 0
    west := 0, south := 0, east := 3, north := 3 }

/-- A thresholded grid significant exactly at pixels `(1,1)` and `(1,2)`. -/
def ng3 : GridF := fun i j =>
  if i = 1 ∧ (j = 1 ∨ j = 2) then Flt.fin 1 else Flt.fin 0

/-- Witness for C5: on `base3`/`ng3` the pixel bounding box is
`[1..1, 1..2]` and the cropped geographic bounds evaluate to `((1,1), (2,3))`. -/
theorem colorize_crop_bounds_witness :
    ((∀ p ∈ sigOf base3 ng3, 1 ≤ p.1 ∧ p.1 ≤ 1 ∧ 1 ≤ p.2 ∧ p.2 ≤ 2)
      ∧ (∃ p ∈ sigOf base3 ng3, p.1 = 1) ∧ (∃ p ∈ sigOf base3 ng3, p.1 = 1)
      ∧ (∃ p ∈ sigOf base3 ng3, p.2 = 1) ∧ (∃ p ∈ sigOf base3 ng3, p.2 = 2))
    ∧ colorizeBounds base3 ng3 = ((1, 1), (2, 3)) := by
  have hsig : sigOf base3 ng3 = [(1, 1), (1, 2)] := by
    simp [sigOf, sigList, ng3, Flt.gtZero, base3, List.range_succ]
  have hb : ∀ p ∈ sigOf base3 ng3, 1 ≤ p.1 ∧ p.1 ≤ 1 ∧ 1 ≤ p.2 ∧ p.2 ≤ 2 := by
    rw [hsig]
    decide
  have he1 : ∃ p ∈ sigOf base3 ng3, p.1 = 1 := by
    rw [hsig]
    decide
  have he2 : ∃ p ∈ sigOf base3 ng3, p.2 = 1 := by
    rw [hsig]
    decide
  have he3 : ∃ p ∈ sigOf base3 ng3, p.2 = 2 := by
    rw [hsig]
    decide
  have hmain := colorize_crop_bounds base3 ng3 1 1 1 2 hb he1 he1 he2 he3
  refine ⟨⟨hb, he1, he1, he2, he3⟩, ?_⟩
  rw [hmain]
  norm_num [pixelWidth, pixelHeight, base3]

/-- C2 counterexample: with a one-pixel all-zero composite (base `baseZ`,
factor layer all zero, threshold `0`) no pixel is significant, and the fallback
branch returns `[[north, west], [south, east]] = [[58, 24], [56, 26]]` — the
first corner's latitude is strictly greater than the second's, refuting the
claimed `[[south, west], [north, east]]` ordering. -/
theorem updateMap_fallback_bounds_counterexample :
    ¬ ((updateMap catZ baseZ ["f"] [] (1/2) 0 "ts").bounds.1.1
        ≤ (updateMap catZ baseZ ["f"] [] (1/2) 0 "ts").bounds.2.1) := by
  have hb : (updateMap catZ baseZ ["f"] [] (1/2) 0 "ts").bounds = ((58, 24), (56, 26)) := by
    simp [updateMap, colorizeBounds, sigOf, sigList, pipelineNg, thresholdStage, normalizeStage,
      ieeeDiv, gridMax, gridVals, listMaxQ, List.range_succ, fallbackBounds,
      compositeGrid, dividedGrid, accumGrid, addPosLayers, subNegLayers, nFactors, catZ, baseZ,
      Flt.ltF, Flt.gtZero]
  rw [hb]
  norm_num

/-- C2 (amended): for every request reaching the colorize step, on a raster
whose geographic box satisfies `south ≤ north` and `west ≤ east`, the returned
bounds always have ordered longitudes; the latitudes are ordered
(`[[south,west],[north,east]]`) whenever at least one pixel qualifies, but in
the no-qualifying-pixel fallback the code returns
`[[north, west], [south, east]]`, with the two latitudes swapped. -/
theorem updateMap_bounds_ordering (cat : FactorCatalog) (b : Raster) (pos neg : List String)
    (trans : ℚ) (t : ℕ) (ts : String) (hsel : ¬(pos = [] ∧ neg = []))
    (hlat : b.south ≤ b.north) (hlon : b.west ≤ b.east) :
    (updateMap cat b pos neg trans t ts).bounds.1.2
        ≤ (updateMap cat b pos neg trans t ts).bounds.2.2
    ∧ (sigOf b (pipelineNg cat b pos neg t) ≠ [] →
        (updateMap cat b pos neg trans t ts).bounds.1.1
          ≤ (updateMap cat b pos neg trans t ts).bounds.2.1)
    ∧ (sigOf b (pipelineNg cat b pos neg t) = [] →
        (updateMap cat b pos neg trans t ts).bounds = ((b.north, b.west), (b.south, b.east))) := by
  have hbnd : (updateMap cat b pos neg trans t ts).bounds
      = colorizeBounds b (pipelineNg cat b pos neg t) := by
    simp [updateMap, if_neg hsel]
  rw [hbnd]
  by_cases hs : sigOf b (pipelineNg cat b pos neg t) = []
  · rw [colorizeBounds, if_pos hs]
    exact ⟨hlon, fun h => absurd hs h, fun _ => rfl⟩
  · rw [colorizeBounds, if_neg hs]
    obtain ⟨p, hp⟩ := List.exists_mem_of_ne_nil _ hs
    have hpw : 0 ≤ pixelWidth b := div_nonneg (sub_nonneg.mpr hlon) (Nat.cast_nonneg _)
    have hph : 0 ≤ pixelHeight b := div_nonneg (sub_nonneg.mpr hlat) (Nat.cast_nonneg _)
    have hrow : minRowOf b (pipelineNg cat b pos neg t) ≤ maxRowOf b (pipelineNg cat b pos neg t) :=
      le_trans (listMinN_le_of_mem (List.mem_map.mpr ⟨p, hp, rfl⟩) _)
               (le_listMaxN_of_mem (List.mem_map.mpr ⟨p, hp, rfl⟩) 0)
    have hcol : minColOf b (pipelineNg cat b pos neg t) ≤ maxColOf b (pipelineNg cat b pos neg t) :=
      le_trans (listMinN_le_of_mem (List.mem_map.mpr ⟨p, hp, rfl⟩) _)
               (le_listMaxN_of_mem (List.mem_map.mpr ⟨p, hp, rfl⟩) 0)
    have hcrow : ((minRowOf b (pipelineNg cat b pos neg t) : ℕ) : ℚ)
        ≤ ((maxRowOf b (pipelineNg cat b pos neg t) : ℕ) : ℚ) + 1 :=
      le_trans (Nat.cast_le.mpr hrow) (le_add_of_nonneg_right zero_le_one)
    have hccol : ((minColOf b (pipelineNg cat b pos neg t) : ℕ) : ℚ)
        ≤ ((maxColOf b (pipelineNg cat b pos neg t) : ℕ) : ℚ) + 1 :=
      le_trans (Nat.cast_le.mpr hcol) (le_add_of_nonneg_right zero_le_one)
    refine ⟨?_, fun _ => ?_, fun h => absurd h hs⟩
    · exact add_le_add_left (mul_le_mul_of_nonneg_right hccol hpw) b.west
    · exact sub_le_sub_left (mul_le_mul_of_nonneg_right hcrow hph) b.north

/-- Witness for C2 (amended) at a concrete input (the all-zero one-pixel
scenario, which exercises the fallback branch). -/
theorem updateMap_bounds_ordering_witness :
    ((¬((["f"] : List String) = [] ∧ ([] : List String) = []))
      ∧ baseZ.south ≤ baseZ.north ∧ baseZ.west ≤ baseZ.east)
    ∧ ((updateMap catZ baseZ ["f"] [] (1/2) 0 "ts").bounds.1.2
          ≤ (updateMap catZ baseZ ["f"] [] (1/2) 0 "ts").bounds.2.2
      ∧ (sigOf baseZ (pipelineNg catZ baseZ ["f"] [] 0) ≠ [] →
          (updateMap catZ baseZ ["f"] [] (1/2) 0 "ts").bounds.1.1
            ≤ (updateMap catZ baseZ ["f"] [] (1/2) 0 "ts").bounds.2.1)
      ∧ (sigOf baseZ (pipelineNg catZ baseZ ["f"] [] 0) = [] →
          (updateMap catZ baseZ ["f"] [] (1/2) 0 "ts").bounds
            = ((baseZ.north, baseZ.west), (baseZ.south, baseZ.east)))) :=
  ⟨⟨by simp, by norm_num [baseZ], by norm_num [baseZ]⟩,
    updateMap_bounds_ordering catZ baseZ ["f"] [] (1/2) 0 "ts" (by simp)
      (by norm_num [baseZ]) (by norm_num [baseZ])⟩

/-- C1 counterexample: on an all-zero one-pixel composite the normalize step
does **not** leave the grid unchanged (all zero) — it divides by the zero
maximum, producing NaN at the pixel. -/
theorem allzero_normalized_not_unchanged_counterexample :
    normalizeStage 1 1 (compositeGrid catZ baseZ.grid ["f"] []) 0 0 = Flt.nan
    ∧ normalizeStage 1 1 (compositeGrid catZ baseZ.grid ["f"] []) 0 0 ≠ Flt.fin 0 := by
  have h : normalizeStage 1 1 (compositeGrid catZ baseZ.grid ["f"] []) 0 0 = Flt.nan := by
    simp [normalizeStage, ieeeDiv, gridMax, gridVals, listMaxQ, List.range_succ,
      compositeGrid, dividedGrid, accumGrid, addPosLayers, subNegLayers, nFactors, catZ, baseZ]
  refine ⟨h, ?_⟩
  rw [h]
  exact fun hh => Flt.noConfusion hh

/-- C1 (amended): when the composite grid's maximum is `0` (all-zero composite),
the colorize step divides by that zero maximum, making every in-range normalized
value NaN (not an unchanged all-zero grid); since every strict comparison with
NaN is false, no pixel is significant, the full-extent fallback bounds are
returned, and every pixel of the emitted image has alpha byte `0` — all without
raising (numpy produces the NaNs with only a warning). -/
theorem allzero_composite_graceful (cat : FactorCatalog) (b : Raster) (pos neg : List String)
    (trans : ℚ) (t : ℕ) (ts : String) (hsel : ¬(pos = [] ∧ neg = []))
    (hr : 0 < b.rows) (hc : 0 < b.cols)
    (hmax : gridMax b.rows b.cols (compositeGrid cat b.grid pos neg) = 0) :
    (∀ i j, i < b.rows → j < b.cols → pipelineNg cat b pos neg t i j = Flt.nan)
    ∧ sigOf b (pipelineNg cat b pos neg t) = []
    ∧ (updateMap cat b pos neg trans t ts).bounds = fallbackBounds b
    ∧ (∀ img, (updateMap cat b pos neg trans t ts).emitted = some img →
        ∀ row ∈ img, ∀ px ∈ row, px.2.2.2 = 0) := by
  have hzero : ∀ i j, i < b.rows → j < b.cols → compositeGrid cat b.grid pos neg i j = 0 := by
    intro i j hi hj
    exact le_antisymm (hmax ▸ entry_le_gridMax hi hj _) (compositeGrid_nonneg cat b.grid pos neg i j)
  have hnan : ∀ i j, i < b.rows → j < b.cols → pipelineNg cat b pos neg t i j = Flt.nan := by
    intro i j hi hj
    have hn : normalizeStage b.rows b.cols (compositeGrid cat b.grid pos neg) i j = Flt.nan := by
      rw [normalizeStage, hzero i j hi hj, hmax]
      simp [ieeeDiv]
    rw [pipelineNg, thresholdStage, hn]
    simp [Flt.ltF]
  have hsig : sigOf b (pipelineNg cat b pos neg t) = [] := by
    apply sigList_eq_nil
    intro i j hi hj
    rw [hnan i j hi hj]
    rfl
  refine ⟨hnan, hsig, ?_, ?_⟩
  · simp [updateMap, if_neg hsel, colorizeBounds, hsig]
  · intro img himg row hrow px hpx
    have himg2 : img = colorizeImage b (pipelineNg cat b pos neg t) := by
      simp [updateMap, if_neg hsel] at himg
      exact himg.symm
    rw [himg2, colorizeImage, if_pos hsig, emitImage] at hrow
    obtain ⟨di, hdi, rfl⟩ := List.mem_map.mp hrow
    rw [List.mem_range, Nat.sub_zero] at hdi
    obtain ⟨dj, hdj, rfl⟩ := List.mem_map.mp hpx
    rw [List.mem_range, Nat.sub_zero] at hdj
    have halpha : (rgbaGrid (pipelineNg cat b pos neg t) (0 + di) (0 + dj)).2.2.2 = 0 := by
      rw [rgbaGrid, alphaFloat]
      have := hnan (0 + di) (0 + dj) (by simpa using hdi) (by simpa using hdj)
      rw [this]
      rfl
    rw [halpha, toByte_zero]

/-- Witness for C1 (amended) at the concrete one-pixel all-zero scenario. -/
theorem allzero_composite_graceful_witness :
    ((¬((["f"] : List String) = [] ∧ ([] : List String) = []))
      ∧ 0 < baseZ.rows ∧ 0 < baseZ.cols
      ∧ gridMax baseZ.rows baseZ.cols (compositeGrid catZ baseZ.grid ["f"] []) = 0)
    ∧ ((∀ i j, i < baseZ.rows → j < baseZ.cols →
          pipelineNg catZ baseZ ["f"] [] 0 i j = Flt.nan)
      ∧ sigOf baseZ (pipelineNg catZ baseZ ["f"] [] 0) = []
      ∧ (updateMap catZ baseZ ["f"] [] (1/2) 0 "ts").bounds = fallbackBounds baseZ
      ∧ (∀ img, (updateMap catZ baseZ ["f"] [] (1/2) 0 "ts").emitted = some img →
          ∀ row ∈ img, ∀ px ∈ row, px.2.2.2 = 0)) := by
  have hmax : gridMax baseZ.rows baseZ.cols (compositeGrid catZ baseZ.grid ["f"] []) = 0 := by
    simp [gridMax, gridVals, listMaxQ, List.range_succ,
      compositeGrid, dividedGrid, accumGrid, addPosLayers, subNegLayers, nFactors, catZ, baseZ]
  exact ⟨⟨by simp, by norm_num [baseZ], by norm_num [baseZ], hmax⟩,
    allzero_composite_graceful catZ baseZ ["f"] [] (1/2) 0 "ts" (by simp)
      (by norm_num [baseZ]) (by norm_num [baseZ]) hmax⟩


end HHTool
